import Mathlib

/-!
Verification development for the pyadjoint tape/block engine
(`src/fenics_adjoint/solving.py` and `src/fenics_adjoint/types/function.py`).

The embedding models the mutable runtime objects explicitly:

* function/constant/bc objects are identified by a numeric id (`fid`); their
  mutable live values sit in a state component indexed by id;
* a `BlockOutput` is identified by an index; its mutable checkpoint value and
  adjoint accumulator sit in state components indexed by that index;
* symbolic UFL forms are represented by the list of ids of their coefficients;
* the numerical backend (assembly, linear solves, derivatives) is an opaque
  collaborator, represented by a structure of function parameters, and the
  backend calls issued by a method are additionally recorded in an event trace
  so that ordering properties can be stated.
-/

/-- The adjoint accumulator of a BlockOutput.  `zero` is the language-native
numeric zero used by the pyadjoint core as the "never written" sentinel
(caught by the `isinstance(dJdu, (int, float)) and dJdu == 0` test in
`SolveBlock.evaluate_adj`); `vec v` is an accumulated vector value. -/
inductive AdjVal where
  | zero : AdjVal
  | vec : Int → AdjVal
deriving DecidableEq, Repr

/-- Modelled from the spec: `BlockOutput.add_adj_output` of the pyadjoint core
(the core `pyadjoint/block.py` is not under `src/`): if the accumulator is
currently the zero sentinel it is replaced by the contribution, otherwise the
contribution is added element-wise. -/
def addAdj : AdjVal → AdjVal → AdjVal
  | .zero, c => c
  | .vec v, .zero => .vec v
  | .vec v, .vec w => .vec (v + w)

theorem addAdj_zero_right : ∀ a : AdjVal, addAdj a .zero = a := by
  intro a; cases a <;> rfl

/-- The kind of the live object wrapped by a BlockOutput, used by the
`isinstance` dispatch in the dependency loop of `SolveBlock.evaluate_adj`. -/
inductive ObjKind where
  | function : ObjKind
  | constant : ObjKind
  | dirichletBC : ObjKind
  | expression : ObjKind
deriving DecidableEq, Repr

/-- Static (never mutated) object wiring of one recorded program: which
function object a BlockOutput wraps, each object's kind, and the static data
of boundary-condition objects (their constrained dof rows; homogenization does
not change the rows, only the prescribed value). -/
structure Env where
  fid : Nat → Nat
  kind : Nat → ObjKind
  bcDirichlet : Nat → Bool
  bcRows : Nat → List Nat

/-- The mutable runtime state: per-BlockOutput checkpoint values and adjoint
accumulators, per-object live values, and per-bc prescribed values. -/
@[ext] structure TapeState where
  cp : Nat → Int
  live : Nat → Int
  adj : Nat → AdjVal
  bcVal : Nat → Int

/-- A symbolic UFL form: the ids of the objects returned by `.coefficients()`. -/
structure Form where
  coeffs : List Nat
deriving DecidableEq, Repr

/-- One side of a `ufl.equation.Equation` handed to `solve`: either a genuine
`ufl.Form` or something that is not a form (for instance the literal `0` in
`solve(F == 0, u, bc)`). -/
inductive UflSide where
  | form : Form → UflSide
  | scalarZero : UflSide
  | nonForm : UflSide
deriving DecidableEq, Repr

/-- `isinstance(side, ufl.Form)`. -/
def sideIsForm : UflSide → Bool
  | .form _ => true
  | _ => false

/-- `side.coefficients()` (only ever called on actual forms). -/
def sideCoeffs : UflSide → List Nat
  | .form f => f.coeffs
  | _ => []

/-- The first positional argument of `solve`: an `Equation` (variational
problem) or a linear-algebra object (matrix), which `SolveBlock.__init__`
does not support. -/
inductive SolveArg0 where
  | equation : UflSide → UflSide → SolveArg0
  | linAlg : Nat → SolveArg0
deriving DecidableEq, Repr

/-- The optional third positional argument of `solve`: nothing, a single
boundary condition, or a list of boundary conditions. -/
inductive BcArg where
  | noBc : BcArg
  | single : Nat → BcArg
  | bcList : List Nat → BcArg
deriving DecidableEq, Repr

/-- `SolveBlock.__init__` normalizes the bc argument into a list. -/
def bcArgList : BcArg → List Nat
  | .noBc => []
  | .single f => [f]
  | .bcList fs => fs

/-- `SolveBlock.__init__` raises `NotImplementedError` on the linear-algebra
path. -/
inductive ConstructionError where
  | notImplemented : ConstructionError
deriving DecidableEq, Repr

/-- The state of a SolveBlock right after `__init__` (no output attached yet;
the `add_output` call in `__init__` is commented out in the source). -/
structure SolveBlkCore where
  lhsCoeffs : List Nat
  rhsCoeffs : List Nat
  linear : Bool
  funcFid : Nat
  bcs : List Nat
  deps : List Nat
deriving DecidableEq, Repr

/-- `SolveBlock.__init__` (`solving.py` lines 24-59).  `boOf` maps an object
id to the index of its current BlockOutput (`get_block_output`).  Dependencies
are wired in source order: right-hand-side coefficients when the block is
classified linear, then boundary conditions, then left-hand-side
coefficients. -/
def solveBlockInit (arg0 : SolveArg0) (funcFid : Nat) (bca : BcArg)
    (boOf : Nat → Nat) : Except ConstructionError SolveBlkCore :=
  match arg0 with
  | .linAlg _ => .error .notImplemented
  | .equation lhs rhs =>
    let bcs := bcArgList bca
    let lin := sideIsForm lhs && sideIsForm rhs
    let depsRhs := if lin then (sideCoeffs rhs).map boOf else []
    let depsBcs := bcs.map boOf
    let depsLhs := (sideCoeffs lhs).map boOf
    .ok { lhsCoeffs := sideCoeffs lhs
          rhsCoeffs := sideCoeffs rhs
          linear := lin
          funcFid := funcFid
          bcs := bcs
          deps := depsRhs ++ depsBcs ++ depsLhs }

/-- A SolveBlock after its output BlockOutput has been attached by the
annotated `solve` entry point. -/
structure SolveBlk extends SolveBlkCore where
  out : Nat
deriving DecidableEq, Repr

/-- `block.add_output(block_output)` in the `solve` entry point. -/
def attachOutput (c : SolveBlkCore) (o : Nat) : SolveBlk :=
  { c with out := o }

/-- Events of the annotated `solve` entry point (`solving.py` lines 8-20). -/
inductive SolveEv where
  | blockConstructed : SolveEv
  | blockAdded : SolveEv
  | outputCreated : SolveEv
  | outputAttached : SolveEv
  | forwardSolve : SolveEv
deriving DecidableEq, Repr

/-- The annotated `solve` entry point: construct the SolveBlock, append it to
the working tape, create the output BlockOutput on `args[1]`, attach it, then
run the real forward backend solve.  Returns the attached block (when
annotating) and the ordered trace of the steps executed. -/
def solveEntry (annotate : Bool) (arg0 : SolveArg0) (funcFid : Nat)
    (bca : BcArg) (boOf : Nat → Nat) (newBo : Nat) :
    Except ConstructionError (Option SolveBlk × List SolveEv) :=
  if annotate then
    match solveBlockInit arg0 funcFid bca boOf with
    | .error e => .error e
    | .ok core =>
      .ok (some (attachOutput core newBo),
           [.blockConstructed, .blockAdded, .outputCreated, .outputAttached,
            .forwardSolve])
  else
    .ok (none, [.forwardSolve])

/-- The event trace of a `solve` call (empty if construction failed). -/
def solveEntryEvents (annotate : Bool) (arg0 : SolveArg0) (funcFid : Nat)
    (bca : BcArg) (boOf : Nat → Nat) (newBo : Nat) : List SolveEv :=
  match solveEntry annotate arg0 funcFid bca boOf newBo with
  | .ok (_, evs) => evs
  | .error _ => []

/-- A live object or an owned checkpoint copy.  Modelled from the spec:
`BlockOutput.get_saved_output` of the pyadjoint core returns the checkpoint,
"an owned, independent copy" of the value, so the returned object is always a
distinct object from the live one (`c != c_rep` in `SolveBlock.recompute` is
always true for checkpointed dependencies). -/
inductive Obj where
  | live : Nat → Obj
  | cpCopy : Nat → Obj
deriving DecidableEq, Repr

/-- The current value held by an object: the live store for live objects, the
BlockOutput's checkpoint for checkpoint copies. -/
def objVal (s : TapeState) : Obj → Int
  | .live f => s.live f
  | .cpCopy d => s.cp d

/-- The replacement-dictionary entry for object id `f`: the last dependency in
iteration order whose live object is `f` wins (Python dict assignment
overwrites earlier entries). -/
def lastDep (env : Env) (deps : List Nat) (f : Nat) : Option Nat :=
  deps.foldl (fun acc d => if env.fid d = f then some d else acc) none

/-- The object substituted for coefficient `f` when rebuilding a form in
`SolveBlock.recompute`: the checkpoint copy of its last recorded dependency if
there is one, otherwise the live object itself. -/
def substObj (env : Env) (deps : List Nat) (f : Nat) : Obj :=
  match lastDep env deps f with
  | some d => .cpCopy d
  | none => .live f

/-- The object handed to the backend solve as the unknown in
`SolveBlock.recompute` (`solving.py` lines 176-187): `self.func`, replaced by
the dependency's checkpoint copy when `self.func` is a coefficient of the
left-hand side and appears among the dependencies. -/
def solveTarget (env : Env) (b : SolveBlk) : Obj :=
  if b.funcFid ∈ b.lhsCoeffs then substObj env b.deps b.funcFid
  else .live b.funcFid

/-- One coefficient slot of the equation handed to the backend solve: either
the unknown being solved for (whose stored value is an initial guess the
deterministic backend contract ignores) or a substituted known value. -/
inductive CoeffArg where
  | unknown : CoeffArg
  | value : Int → CoeffArg
deriving DecidableEq, Repr

/-- The argument for coefficient `f` of the rebuilt form. -/
def slotArg (env : Env) (b : SolveBlk) (s : TapeState) (f : Nat) : CoeffArg :=
  let o := substObj env b.deps f
  if o = solveTarget env b then .unknown else .value (objVal s o)

/-- The opaque numerical backend (spec section 6): deterministic functions
standing for `solve`, the adjoint linear solve, and the assembled
per-dependency sensitivity contributions of `evaluate_adj`. -/
structure Backend where
  solveVal : List CoeffArg → List CoeffArg → List Int → Int
  adjSolveVal : List Int → Int → Int
  contribFun : List Int → Nat → Int → Int
  contribConst : List Int → Nat → Int → Int
  contribBC : Nat → Int → Int
  contribExpr : List Int → Nat → Int → Int

/-- Substituted left-hand-side coefficient slots for the replayed solve. -/
def solveLhsArgs (env : Env) (b : SolveBlk) (s : TapeState) : List CoeffArg :=
  b.lhsCoeffs.map (slotArg env b s)

/-- Substituted right-hand-side coefficient slots: rebuilt only when the block
is linear, otherwise the right-hand side is the literal `0`. -/
def solveRhsArgs (env : Env) (b : SolveBlk) (s : TapeState) : List CoeffArg :=
  if b.linear then b.rhsCoeffs.map (slotArg env b s) else []

/-- The boundary conditions passed to the replayed solve are the block's
recorded live bc objects (`self.bcs`), not checkpoints. -/
def solveBcVals (b : SolveBlk) (s : TapeState) : List Int :=
  b.bcs.map s.bcVal

/-- The value produced by the backend solve during `SolveBlock.recompute`. -/
def solveResult (env : Env) (be : Backend) (b : SolveBlk) (s : TapeState) :
    Int :=
  be.solveVal (solveLhsArgs env b s) (solveRhsArgs env b s) (solveBcVals b s)

/-- `SolveBlock.recompute` (`solving.py` lines 175-201): rebuild the forms
with every coefficient dependency replaced by its checkpoint copy, delegate to
the backend solve writing the result into the target object (the live
`self.func`, or the checkpoint copy substituted for it), then refresh the
output BlockOutput's checkpoint with a copy of the result. -/
def solveRecompute (env : Env) (be : Backend) (b : SolveBlk) (s : TapeState) :
    TapeState :=
  let r := solveResult env be b s
  let s1 :=
    match solveTarget env b with
    | .cpCopy d => { s with cp := Function.update s.cp d r }
    | .live f => { s with live := Function.update s.live f r }
  { s1 with cp := Function.update s1.cp b.out r }

/-- An AssignBlock (`types/function.py` lines 74-93): dependency 0 is the
prior BlockOutput of the assignment target, dependency 1 is the source. -/
structure AssignBlk where
  depTarget : Nat
  depSource : Nat
  out : Nat
deriving DecidableEq, Repr

/-- `AssignBlock.recompute` (`types/function.py` lines 89-93): assign the
source dependency's saved output into the object returned by the output's
`get_saved_output()`, i.e. into the output's checkpoint copy. -/
def assignRecompute (b : AssignBlk) (s : TapeState) : TapeState :=
  { s with cp := Function.update s.cp b.out (s.cp b.depSource) }

/-- A recorded operation on the tape. -/
inductive Blk where
  | solveB : SolveBlk → Blk
  | assignB : AssignBlk → Blk
deriving DecidableEq, Repr

/-- One forward-replay step of the tape. -/
def stepB (env : Env) (be : Backend) (b : Blk) (s : TapeState) : TapeState :=
  match b with
  | .solveB sb => solveRecompute env be sb s
  | .assignB ab => assignRecompute ab s

/-- The forward replay sweep: `recompute()` on every block in recorded
order. -/
def replay (env : Env) (be : Backend) (tape : List Blk) (s : TapeState) :
    TapeState :=
  tape.foldl (fun st b => stepB env be b st) s

/-- Addresses of the mutable state cells, used to reason about the read and
write footprints of replay steps. -/
inductive Pos where
  | cpP : Nat → Pos
  | liveP : Nat → Pos
  | adjP : Nat → Pos
  | bcP : Nat → Pos
deriving DecidableEq, Repr

/-- The value stored at one state cell. -/
inductive PosVal where
  | iv : Int → PosVal
  | av : AdjVal → PosVal
deriving DecidableEq, Repr

/-- Read one state cell. -/
def readP (s : TapeState) : Pos → PosVal
  | .cpP i => .iv (s.cp i)
  | .liveP f => .iv (s.live f)
  | .adjP i => .av (s.adj i)
  | .bcP f => .iv (s.bcVal f)

/-- The cell address of an object's current value. -/
def objPos : Obj → Pos
  | .live f => .liveP f
  | .cpCopy d => .cpP d

/-- The cell read for coefficient `f` during a replayed solve, if its value
matters (the unknown's slot is an ignored initial guess and is not a read). -/
def slotPos (env : Env) (b : SolveBlk) (f : Nat) : Option Pos :=
  let o := substObj env b.deps f
  if o = solveTarget env b then none else some (objPos o)

/-- The cells a replay step reads. -/
def readsB (env : Env) : Blk → List Pos
  | .solveB b =>
    b.lhsCoeffs.filterMap (slotPos env b) ++
      (if b.linear then b.rhsCoeffs.filterMap (slotPos env b) else []) ++
      b.bcs.map Pos.bcP
  | .assignB a => [.cpP a.depSource]

/-- The cells a replay step writes. -/
def writesB (env : Env) : Blk → List Pos
  | .solveB b => [objPos (solveTarget env b), .cpP b.out]
  | .assignB a => [.cpP a.out]

/-- Backend events issued by `SolveBlock.evaluate_adj` (`solving.py` lines
64-173), in program order: symbolic differentiation and assembly of the
Jacobian, boundary-condition copying/homogenization/application, the in-place
transpose of the assembled Jacobian, the adjoint linear solve (the payload is
the right-hand-side vector handed to the backend), and the per-dependency
sensitivity work. -/
inductive Ev where
  | derivJac : Ev
  | assembleJac : Ev
  | bcCopy : Nat → Ev
  | bcHomog : Nat → Ev
  | bcApplyMat : Nat → Int → Ev
  | transposeJac : Ev
  | adjSolve : Int → Ev
  | derivDep : Nat → Ev
  | assembleDep : Nat → Ev
  | zeroBcRows : Nat → List Nat → Ev
  | transposeDep : Nat → Ev
  | bcApplyDepVec : Nat → Nat → Int → Ev
  | innerDep : Nat → Ev
  | applyTmpBcDep : Nat → Ev
deriving DecidableEq, Repr

/-- The boundary-condition list built at `solving.py` lines 100-106: each
Dirichlet bc is copied (`backend.DirichletBC(bc)`) and the copy homogenized,
so the list entry carries prescribed value `0`; a non-Dirichlet bc is appended
as is, carrying its live prescribed value. -/
def localBcs (env : Env) (s : TapeState) (bcs : List Nat) : List (Nat × Int) :=
  bcs.map (fun f => (f, if env.bcDirichlet f then 0 else s.bcVal f))

/-- The events of the boundary-condition loop: copy and homogenize each
Dirichlet bc, then apply the (possibly homogenized) bc to the assembled,
not-yet-transposed Jacobian matrix `dFdu`.  Nothing is ever applied to the
adjoint right-hand side `dJdu`. -/
def bcLoopEvents (env : Env) (s : TapeState) (bcs : List Nat) : List Ev :=
  bcs.flatMap (fun f =>
    if env.bcDirichlet f then [.bcCopy f, .bcHomog f, .bcApplyMat f 0]
    else [.bcApplyMat f (s.bcVal f)])

/-- The coefficient values of the fully substituted residual `F_form`
(`solving.py` lines 70-85): every dependency coefficient is replaced by its
checkpoint, and the solution placeholder (`tmp_u`, which is `self.func` itself
in the nonlinear case) is replaced by the forward output's checkpoint. -/
def adjFArgs (env : Env) (b : SolveBlk) (s : TapeState) : List Int :=
  if b.linear then
    (b.lhsCoeffs ++ b.rhsCoeffs).map
      (fun f => objVal s (substObj env b.deps f)) ++ [s.cp b.out]
  else
    b.lhsCoeffs.map
      (fun f => if f = b.funcFid then s.cp b.out
                else objVal s (substObj env b.deps f))

/-- All constrained dof rows collected from the bc list (`bc_rows` at
`solving.py` lines 128-134); homogenization does not change the rows. -/
def allBcRows (env : Env) (bcs : List (Nat × Int)) : List Nat :=
  bcs.flatMap (fun p => env.bcRows p.1)

/-- The events of one iteration of the dependency loop (`solving.py` lines
114-173), dispatching on the kind of the live dependency object. -/
def depEvents (env : Env) (b : SolveBlk) (rows : List Nat) (bcl : List (Nat × Int))
    (d : Nat) : List Ev :=
  if env.fid d = b.funcFid then []
  else
    match env.kind (env.fid d) with
    | .function => [.derivDep (env.fid d), .assembleDep (env.fid d),
                    .zeroBcRows (env.fid d) rows, .transposeDep (env.fid d)]
    | .constant => [.derivDep (env.fid d), .assembleDep (env.fid d)] ++
        bcl.map (fun p => Ev.bcApplyDepVec (env.fid d) p.1 p.2) ++
        [.innerDep (env.fid d)]
    | .dirichletBC => [.applyTmpBcDep (env.fid d)]
    | .expression => [.derivDep (env.fid d), .assembleDep (env.fid d),
                      .zeroBcRows (env.fid d) rows, .transposeDep (env.fid d)]

/-- The adjoint contribution `add_adj_output`-ed to one dependency (the
backend computes the assembled sensitivity; the adjoint variable `adjV` is the
solution of the transposed linear system). -/
def depContrib (env : Env) (be : Backend) (b : SolveBlk) (fargs : List Int)
    (adjV : Int) (d : Nat) : Option AdjVal :=
  if env.fid d = b.funcFid then none
  else
    match env.kind (env.fid d) with
    | .function => some (.vec (be.contribFun fargs (env.fid d) adjV))
    | .constant => some (.vec (be.contribConst fargs (env.fid d) adjV))
    | .dirichletBC => some (.vec (be.contribBC (env.fid d) adjV))
    | .expression => some (.vec (be.contribExpr fargs (env.fid d) adjV))

/-- One iteration of the dependency loop acting on the state: the dependency's
adjoint accumulator receives its contribution via `add_adj_output`. -/
def depStep (env : Env) (be : Backend) (b : SolveBlk) (fargs : List Int)
    (adjV : Int) (st : TapeState) (d : Nat) : TapeState :=
  match depContrib env be b fargs adjV d with
  | none => st
  | some c => { st with adj := Function.update st.adj d (addAdj (st.adj d) c) }

/-- The state after the dependency loop. -/
def depLoopState (env : Env) (be : Backend) (b : SolveBlk) (fargs : List Int)
    (adjV : Int) (s : TapeState) : TapeState :=
  b.deps.foldl (depStep env be b fargs adjV) s

/-- `SolveBlock.evaluate_adj` (`solving.py` lines 64-173).  The residual is
substituted and the Jacobian `dFdu` is symbolically differentiated and
assembled first; only then is the accumulated output adjoint `dJdu` fetched
and tested against the int/float zero sentinel (lines 92-97), returning early
if it matches.  Otherwise each Dirichlet bc is copied, homogenized and applied
to the assembled Jacobian, the Jacobian is transposed in place, the adjoint
system is solved with the unmodified `dJdu` as right-hand side, and the
dependency loop accumulates the sensitivities. -/
def evalAdjSolve (env : Env) (be : Backend) (b : SolveBlk) (s : TapeState) :
    TapeState × List Ev :=
  let preEvents := [Ev.derivJac, Ev.assembleJac]
  match s.adj b.out with
  | .zero => (s, preEvents)
  | .vec v =>
    let bcl := localBcs env s b.bcs
    let rows := allBcRows env bcl
    let fargs := adjFArgs env b s
    let adjV := be.adjSolveVal fargs v
    let s' := depLoopState env be b fargs adjV s
    (s', preEvents ++ bcLoopEvents env s b.bcs ++
      [Ev.transposeJac, Ev.adjSolve v] ++
      b.deps.flatMap (depEvents env b rows bcl))

/-- `AssignBlock.evaluate_adj` (`types/function.py` lines 84-87): read the
single output's accumulated adjoint and `add_adj_output` it, unchanged, onto
dependency 1 (the assignment source); dependency 0 (the prior target) gets
nothing, and no backend operation is invoked. -/
def evalAdjAssign (b : AssignBlk) (s : TapeState) : TapeState :=
  let adjInput := s.adj b.out
  { s with
    adj := Function.update s.adj b.depSource
      (addAdj (s.adj b.depSource) adjInput) }

/-- The output checkpoint is refreshed with the solve result
(`solving.py` line 201). -/
theorem solveRecompute_out (env : Env) (be : Backend) (sb : SolveBlk)
    (s : TapeState) :
    readP (solveRecompute env be sb s) (.cpP sb.out) =
      .iv (solveResult env be sb s) := by
  cases htg : solveTarget env sb <;>
    simp [solveRecompute, htg, readP, Function.update_same]

/-- The solve result is written into the target object (`solving.py`
line 198). -/
theorem solveRecompute_target (env : Env) (be : Backend) (sb : SolveBlk)
    (s : TapeState) :
    readP (solveRecompute env be sb s) (objPos (solveTarget env sb)) =
      .iv (solveResult env be sb s) := by
  cases htg : solveTarget env sb with
  | cpCopy d =>
    by_cases hd : d = sb.out <;>
      simp [solveRecompute, htg, readP, objPos, Function.update, hd]
  | live f =>
    simp [solveRecompute, htg, readP, objPos, Function.update_same]

/-- Frame property of `AssignBlock.recompute`: only the output's checkpoint
cell is written. -/
theorem assignRecompute_frame (b : AssignBlk) (s : TapeState) (p : Pos)
    (hp : p ≠ .cpP b.out) : readP (assignRecompute b s) p = readP s p := by
  cases p with
  | cpP i =>
    have hi : i ≠ b.out := fun h => hp (by rw [h])
    simp [assignRecompute, readP, Function.update_noteq hi]
  | liveP f => rfl
  | adjP i => rfl
  | bcP f => rfl

/-- Frame property of `SolveBlock.recompute`: only the target object's cell
and the output's checkpoint cell are written. -/
theorem solveRecompute_frame (env : Env) (be : Backend) (sb : SolveBlk)
    (s : TapeState) (p : Pos) (h1 : p ≠ objPos (solveTarget env sb))
    (h2 : p ≠ .cpP sb.out) :
    readP (solveRecompute env be sb s) p = readP s p := by
  cases htg : solveTarget env sb with
  | cpCopy d =>
    rw [htg] at h1
    simp only [objPos] at h1
    cases p with
    | cpP i =>
      have hd : i ≠ d := fun h => h1 (by rw [h])
      have ho : i ≠ sb.out := fun h => h2 (by rw [h])
      simp [solveRecompute, htg, readP, Function.update_noteq hd,
        Function.update_noteq ho]
    | liveP f => simp [solveRecompute, htg, readP]
    | adjP i => simp [solveRecompute, htg, readP]
    | bcP f => simp [solveRecompute, htg, readP]
  | live f0 =>
    rw [htg] at h1
    simp only [objPos] at h1
    cases p with
    | cpP i =>
      have ho : i ≠ sb.out := fun h => h2 (by rw [h])
      simp [solveRecompute, htg, readP, Function.update_noteq ho]
    | liveP f =>
      have hf : f ≠ f0 := fun h => h1 (by rw [h])
      simp [solveRecompute, htg, readP, Function.update_noteq hf]
    | adjP i => simp [solveRecompute, htg, readP]
    | bcP f => simp [solveRecompute, htg, readP]

/-- Frame property of a replay step. -/
theorem stepB_frame (env : Env) (be : Backend) (b : Blk) (s : TapeState)
    (p : Pos) (hp : p ∉ writesB env b) :
    readP (stepB env be b s) p = readP s p := by
  cases b with
  | solveB sb =>
    simp only [writesB, List.mem_cons, List.not_mem_nil, or_false,
      not_or] at hp
    exact solveRecompute_frame env be sb s p hp.1 hp.2
  | assignB ab =>
    simp only [writesB, List.mem_cons, List.not_mem_nil, or_false] at hp
    exact assignRecompute_frame ab s p hp

/-- Values read through `objPos` agree when the cells agree. -/
theorem objVal_readP (s t : TapeState) (o : Obj)
    (h : readP s (objPos o) = readP t (objPos o)) :
    objVal s o = objVal t o := by
  cases o <;> simpa [readP, objPos, objVal] using h

/-- A coefficient slot only depends on the cell named by `slotPos`. -/
theorem slotArg_congr (env : Env) (b : SolveBlk) (s t : TapeState) (f : Nat)
    (h : ∀ pos, slotPos env b f = some pos → readP s pos = readP t pos) :
    slotArg env b s f = slotArg env b t f := by
  unfold slotArg
  unfold slotPos at h
  by_cases ho : substObj env b.deps f = solveTarget env b
  · simp [ho]
  · simp only [ho, if_false]
    simp only [ho, if_false, Option.some.injEq] at h
    exact congrArg CoeffArg.value (objVal_readP s t _ (h _ rfl))

/-- The replayed solve result only depends on the cells in the block's read
footprint. -/
theorem solveResult_congr (env : Env) (be : Backend) (sb : SolveBlk)
    (s t : TapeState)
    (h : ∀ p ∈ readsB env (.solveB sb), readP s p = readP t p) :
    solveResult env be sb s = solveResult env be sb t := by
  have hlhs : solveLhsArgs env sb s = solveLhsArgs env sb t := by
    apply List.map_congr_left
    intro f hf
    apply slotArg_congr
    intro pos hpos
    apply h
    simp only [readsB]
    exact List.mem_append_left _
      (List.mem_append_left _ (List.mem_filterMap.mpr ⟨f, hf, hpos⟩))
  have hrhs : solveRhsArgs env sb s = solveRhsArgs env sb t := by
    unfold solveRhsArgs
    by_cases hl : sb.linear
    · simp only [hl, if_true]
      apply List.map_congr_left
      intro f hf
      apply slotArg_congr
      intro pos hpos
      apply h
      simp only [readsB]
      apply List.mem_append_left
      apply List.mem_append_right
      simp only [hl, if_true]
      exact List.mem_filterMap.mpr ⟨f, hf, hpos⟩
    · simp [hl]
  have hbc : solveBcVals sb s = solveBcVals sb t := by
    apply List.map_congr_left
    intro f hf
    have hm : Pos.bcP f ∈ readsB env (.solveB sb) := by
      simp only [readsB]
      exact List.mem_append_right _ (List.mem_map.mpr ⟨f, hf, rfl⟩)
    simpa [readP] using h _ hm
  unfold solveResult
  rw [hlhs, hrhs, hbc]

/-- If two states agree on a block's read footprint, the step writes the same
values into its write footprint from either state. -/
theorem stepB_writes_congr (env : Env) (be : Backend) (b : Blk)
    (s t : TapeState) (h : ∀ p ∈ readsB env b, readP s p = readP t p) :
    ∀ p ∈ writesB env b,
      readP (stepB env be b s) p = readP (stepB env be b t) p := by
  cases b with
  | solveB sb =>
    have hr := solveResult_congr env be sb s t h
    intro p hp
    simp only [writesB, List.mem_cons, List.not_mem_nil, or_false] at hp
    rcases hp with rfl | rfl
    · show readP (solveRecompute env be sb s) _ =
        readP (solveRecompute env be sb t) _
      rw [solveRecompute_target, solveRecompute_target, hr]
    · show readP (solveRecompute env be sb s) _ =
        readP (solveRecompute env be sb t) _
      rw [solveRecompute_out, solveRecompute_out, hr]
  | assignB ab =>
    intro p hp
    simp only [writesB, List.mem_cons, List.not_mem_nil, or_false] at hp
    subst hp
    have hs := h (.cpP ab.depSource) (by simp [readsB])
    simp only [readP] at hs ⊢
    simp only [stepB, assignRecompute, Function.update_same]
    exact hs

/-- Default block used for positional indexing of tapes. -/
def blkDefault : Blk := .assignB { depTarget := 0, depSource := 0, out := 0 }

theorem replay_cons (env : Env) (be : Backend) (b : Blk) (r : List Blk)
    (s : TapeState) :
    replay env be (b :: r) s = replay env be r (stepB env be b s) := rfl

/-- Cells not written by any block of the tape keep their values across a
replay sweep. -/
theorem replay_frame (env : Env) (be : Backend) (l : List Blk) (s : TapeState)
    (p : Pos) (h : ∀ b ∈ l, p ∉ writesB env b) :
    readP (replay env be l s) p = readP s p := by
  induction l generalizing s with
  | nil => rfl
  | cons b r ih =>
    rw [replay_cons]
    rw [ih (stepB env be b s) (fun b2 hb2 => h b2 (List.mem_cons_of_mem _ hb2))]
    exact stepB_frame env be b s p (h b (List.mem_cons_self _ _))

/-- Dataflow well-formedness of a tape: every cell a block reads that is
written at all during replay is already written by some strictly earlier
block.  Tapes produced by the recording process have this shape: a block's
dependencies are BlockOutputs created before it was appended, so the cells it
reads are either never touched by replay (leaf checkpoints, live bc values) or
are refreshed by the earlier producing block; the one cell a solve block
clobbers that anyone also names — the checkpoint copy substituted for the
unknown — is exactly the slot whose stored value the backend solve contract
ignores, and it is excluded from the read footprint. -/
def hypA (env : Env) (tape : List Blk) : Prop :=
  ∀ i < tape.length, ∀ p ∈ readsB env (tape.getD i blkDefault),
    (∃ b ∈ tape, p ∈ writesB env b) →
    ∃ j < i, p ∈ writesB env (tape.getD j blkDefault)

/-- Generic replay-idempotence engine: if two start states agree on every cell
that is either marked `g` (rewritten equal) or never written (`wr` is an upper
bound on the write footprint), then after replaying a dataflow-well-formed
tape from both, every cell that is marked, written, or unwritten agrees. -/
theorem replayGen (env : Env) (be : Backend) (r : List Blk)
    (g wr : Pos → Prop) (s t : TapeState)
    (hw : ∀ b ∈ r, ∀ p ∈ writesB env b, wr p)
    (h1 : ∀ p, g p → readP t p = readP s p)
    (h2 : ∀ p, ¬ wr p → readP t p = readP s p)
    (hA : ∀ i < r.length, ∀ p ∈ readsB env (r.getD i blkDefault),
      wr p → g p ∨ ∃ j < i, p ∈ writesB env (r.getD j blkDefault)) :
    ∀ p, (g p ∨ (∃ b ∈ r, p ∈ writesB env b) ∨ ¬ wr p) →
      readP (replay env be r t) p = readP (replay env be r s) p := by
  induction r generalizing g s t with
  | nil =>
    intro p hp
    rcases hp with hg | hb | hnw
    · exact h1 p hg
    · simp at hb
    · exact h2 p hnw
  | cons b0 r' ih =>
    have hreads : ∀ p ∈ readsB env b0, readP t p = readP s p := by
      intro p hp
      by_cases hwp : wr p
      · have h0 := hA 0 (by simp) p (by simpa using hp) hwp
        rcases h0 with hg | ⟨j, hj, _⟩
        · exact h1 p hg
        · omega
      · exact h2 p hwp
    have hcong := stepB_writes_congr env be b0 t s hreads
    have hrec := ih (fun p => g p ∨ p ∈ writesB env b0)
      (stepB env be b0 s) (stepB env be b0 t)
      (fun b hb q hq => hw b (List.mem_cons_of_mem _ hb) q hq)
      (by
        intro p hp
        by_cases hwb : p ∈ writesB env b0
        · exact hcong p hwb
        · rcases hp with hg | hmem
          · rw [stepB_frame env be b0 s p hwb, stepB_frame env be b0 t p hwb]
            exact h1 p hg
          · exact absurd hmem hwb)
      (by
        intro p hp
        have hwb : p ∉ writesB env b0 :=
          fun hmem => hp (hw b0 (List.mem_cons_self _ _) p hmem)
        rw [stepB_frame env be b0 s p hwb, stepB_frame env be b0 t p hwb]
        exact h2 p hp)
      (by
        intro i hi p hp hwp
        have := hA (i + 1) (by simpa using Nat.succ_lt_succ hi) p
          (by simpa using hp) hwp
        rcases this with hg | ⟨j, hj, hjw⟩
        · exact Or.inl (Or.inl hg)
        · cases j with
          | zero => exact Or.inl (Or.inr (by simpa using hjw))
          | succ j' =>
            exact Or.inr ⟨j', by omega, by simpa using hjw⟩)
    intro p hp
    rw [replay_cons, replay_cons]
    apply hrec
    rcases hp with hg | hb | hnw
    · exact Or.inl (Or.inl hg)
    · rcases hb with ⟨b, hbmem, hbw⟩
      rcases List.mem_cons.mp hbmem with rfl | hbtail
      · exact Or.inl (Or.inr hbw)
      · exact Or.inr (Or.inl ⟨b, hbtail, hbw⟩)
    · exact Or.inr (Or.inr hnw)

/-- Two successive replay sweeps of a dataflow-well-formed tape agree on every
cell: the second replay is the identity on the state produced by the first. -/
theorem replay_idem (env : Env) (be : Backend) (tape : List Blk)
    (s : TapeState) (hA : hypA env tape) :
    ∀ p, readP (replay env be tape (replay env be tape s)) p =
      readP (replay env be tape s) p := by
  intro p
  by_cases hwr : ∃ b ∈ tape, p ∈ writesB env b
  · exact replayGen env be tape (fun _ => False)
      (fun q => ∃ b ∈ tape, q ∈ writesB env b) s (replay env be tape s)
      (fun b hb q hq => ⟨b, hb, hq⟩)
      (fun q hq => hq.elim)
      (fun q hq => replay_frame env be tape s q
        (fun b hb hmem => hq ⟨b, hb, hmem⟩))
      (fun i hi q hq hw2 => Or.inr (hA i hi q hq hw2))
      p (Or.inr (Or.inl hwr))
  · exact replayGen env be tape (fun _ => False)
      (fun q => ∃ b ∈ tape, q ∈ writesB env b) s (replay env be tape s)
      (fun b hb q hq => ⟨b, hb, hq⟩)
      (fun q hq => hq.elim)
      (fun q hq => replay_frame env be tape s q
        (fun b hb hmem => hq ⟨b, hb, hmem⟩))
      (fun i hi q hq hw2 => Or.inr (hA i hi q hq hw2))
      p (Or.inr (Or.inr hwr))

theorem depStep_cp (env : Env) (be : Backend) (b : SolveBlk) (fargs : List Int)
    (adjV : Int) (st : TapeState) (d : Nat) :
    (depStep env be b fargs adjV st d).cp = st.cp := by
  unfold depStep
  split <;> rfl

theorem depStep_live (env : Env) (be : Backend) (b : SolveBlk)
    (fargs : List Int) (adjV : Int) (st : TapeState) (d : Nat) :
    (depStep env be b fargs adjV st d).live = st.live := by
  unfold depStep
  split <;> rfl

theorem depStep_bcVal (env : Env) (be : Backend) (b : SolveBlk)
    (fargs : List Int) (adjV : Int) (st : TapeState) (d : Nat) :
    (depStep env be b fargs adjV st d).bcVal = st.bcVal := by
  unfold depStep
  split <;> rfl

/-- The dependency loop of `evaluate_adj` only touches adjoint accumulators:
checkpoints, live values and bc objects are untouched. -/
theorem depLoopState_preserves (env : Env) (be : Backend) (b : SolveBlk)
    (fargs : List Int) (adjV : Int) (s : TapeState) :
    (depLoopState env be b fargs adjV s).cp = s.cp ∧
    (depLoopState env be b fargs adjV s).live = s.live ∧
    (depLoopState env be b fargs adjV s).bcVal = s.bcVal := by
  unfold depLoopState
  generalize b.deps = l
  induction l generalizing s with
  | nil => exact ⟨rfl, rfl, rfl⟩
  | cons d r ih =>
    rw [List.foldl_cons]
    rcases ih (depStep env be b fargs adjV s d) with ⟨h1, h2, h3⟩
    exact ⟨h1.trans (depStep_cp env be b fargs adjV s d),
      h2.trans (depStep_live env be b fargs adjV s d),
      h3.trans (depStep_bcVal env be b fargs adjV s d)⟩

/-- Short-circuit shape of `evaluate_adj` when the accumulated output adjoint
is the int/float zero sentinel: the state is returned untouched and the trace
shows that the Jacobian had already been differentiated and assembled. -/
theorem evalAdjSolve_zero (env : Env) (be : Backend) (b : SolveBlk)
    (s : TapeState) (h : s.adj b.out = .zero) :
    evalAdjSolve env be b s = (s, [Ev.derivJac, Ev.assembleJac]) := by
  simp only [evalAdjSolve, h]

/-- Unfolded shape of `evaluate_adj` when the accumulated output adjoint is a
vector value (including an exactly zero vector). -/
theorem evalAdjSolve_vec (env : Env) (be : Backend) (b : SolveBlk)
    (s : TapeState) (v : Int) (h : s.adj b.out = .vec v) :
    evalAdjSolve env be b s =
      (depLoopState env be b (adjFArgs env b s)
        (be.adjSolveVal (adjFArgs env b s) v) s,
       [Ev.derivJac, Ev.assembleJac] ++ bcLoopEvents env s b.bcs ++
         [Ev.transposeJac, Ev.adjSolve v] ++
         b.deps.flatMap (depEvents env b
           (allBcRows env (localBcs env s b.bcs)) (localBcs env s b.bcs))) := by
  simp only [evalAdjSolve, h]

/-- The dependency loop emits no matrix-level bc application events. -/
theorem bcApplyMat_not_mem_depEvents (env : Env) (b : SolveBlk)
    (rows : List Nat) (bcl : List (Nat × Int)) (d : Nat) (f : Nat) (v : Int) :
    Ev.bcApplyMat f v ∉ depEvents env b rows bcl d := by
  unfold depEvents
  by_cases h : env.fid d = b.funcFid
  · simp [h]
  · simp only [h, if_false]
    cases env.kind (env.fid d) <;>
      simp [List.mem_append, List.mem_map]

/-- C10 helper: any matrix-level bc application recorded in the trace of
`evaluate_adj` uses prescribed value `0` whenever the bc is a Dirichlet bc,
because the application acts on the homogenized fresh copy. -/
theorem bcApplyMat_mem_trace (env : Env) (be : Backend) (b : SolveBlk)
    (s : TapeState) (f : Nat) (v : Int)
    (hm : Ev.bcApplyMat f v ∈ (evalAdjSolve env be b s).2)
    (hd : env.bcDirichlet f = true) : v = 0 := by
  cases ha : s.adj b.out with
  | zero =>
    rw [evalAdjSolve_zero env be b s ha] at hm
    simp at hm
  | vec v0 =>
    rw [evalAdjSolve_vec env be b s v0 ha] at hm
    simp only [List.mem_append] at hm
    rcases hm with ((h1 | h2) | h3) | h4
    · simp at h1
    · unfold bcLoopEvents at h2
      rw [List.mem_flatMap] at h2
      rcases h2 with ⟨g, _, hgm⟩
      by_cases hdg : env.bcDirichlet g = true
      · rw [if_pos hdg] at hgm
        simp only [List.mem_cons, List.not_mem_nil, or_false] at hgm
        rcases hgm with h | h | h
        · exact absurd h (by simp)
        · exact absurd h (by simp)
        · injection h with hf hv
      · rw [if_neg hdg] at hgm
        simp only [List.mem_cons, List.not_mem_nil, or_false] at hgm
        injection hgm with hf hv
        rw [hf] at hd
        exact absurd hd hdg
    · simp at h3
    · rw [List.mem_flatMap] at h4
      rcases h4 with ⟨d, _, hdm⟩
      exact absurd hdm (bcApplyMat_not_mem_depEvents env b _ _ d f v)

/-- Concrete test wiring, shaped like one Burgers time step: object 0 is the
solution function `u`, object 1 is `u_`, object 9 is a Dirichlet bc;
BlockOutput 0 wraps `u` before the solve, 1 wraps `u_`, 5 wraps the bc,
3 wraps `u` after the solve, 4 wraps `u_` after the assignment. -/
def envF : Env :=
  { fid := fun d => if d = 5 then 9 else if d = 3 then 0 else
      if d = 4 then 1 else d
    kind := fun f => if f = 9 then .dirichletBC else .function
    bcDirichlet := fun f => f == 9
    bcRows := fun f => if f = 9 then [0, 1] else [] }

/-- A concrete deterministic backend instance. -/
def beF : Backend :=
  { solveVal := fun _ _ _ => 7
    adjSolveVal := fun _ v => v
    contribFun := fun _ _ a => a
    contribConst := fun _ _ a => a
    contribBC := fun _ a => a
    contribExpr := fun _ _ a => a }

/-- A concrete nonlinear SolveBlock: `solve(F == 0, u, bc)` with
`F.coefficients() = [u, u_]`, dependencies wired bc-first then lhs
coefficients, output BlockOutput 3. -/
def bF : SolveBlk :=
  { lhsCoeffs := [0, 1], rhsCoeffs := [], linear := false, funcFid := 0,
    bcs := [9], deps := [5, 0, 1], out := 3 }

/-- A concrete AssignBlock `u_.assign(u)`: dependency 0 is `u_`'s prior
BlockOutput, dependency 1 is `u`'s BlockOutput 3, output BlockOutput 4. -/
def aF : AssignBlk := { depTarget := 1, depSource := 3, out := 4 }

/-- The two-block tape of one recorded time step. -/
def tapeF : List Blk := [.solveB bF, .assignB aF]

/-- State with a nonzero accumulated adjoint on the solve output and a
Dirichlet bc with nonzero prescribed value 3. -/
def sC1 : TapeState :=
  { cp := fun i => Int.ofNat i
    live := fun f => Int.ofNat (10 + f)
    adj := fun i => if i = 3 then .vec 5 else .zero
    bcVal := fun f => if f = 9 then 3 else 0 }

/-- State in which every adjoint accumulator is the zero sentinel. -/
def sZero : TapeState :=
  { cp := fun _ => 1, live := fun _ => 10, adj := fun _ => .zero,
    bcVal := fun f => if f = 9 then 3 else 0 }

/-- State in which the solve output's adjoint is an exactly zero vector
value (not the sentinel). -/
def sVec0 : TapeState :=
  { cp := fun _ => 1, live := fun _ => 10,
    adj := fun i => if i = 3 then .vec 0 else .zero,
    bcVal := fun f => if f = 9 then 3 else 0 }

/-- State distinguishing the assignment source checkpoint (7) from every live
value (10) and every other checkpoint (1). -/
def sC6 : TapeState :=
  { cp := fun i => if i = 3 then 7 else 1, live := fun _ => 10,
    adj := fun _ => .zero, bcVal := fun _ => 0 }

/-- C1: evaluating `SolveBlock.evaluate_adj` at a failing input — one
recorded Dirichlet bc with prescribed value 3 and accumulated output adjoint
`vec 5`.  The trace shows the bc applied (homogenized, value 0) to the
assembled Jacobian BEFORE the transpose, and the adjoint solve receiving the
raw accumulated adjoint 5 as right-hand side: no boundary condition is ever
applied to `dJdu`, although the claim (and the code's own comment at
`solving.py` line 99) says both the transposed Jacobian and `dJdu` receive
them. -/
theorem evaluateAdj_bc_trace_at_failing_input :
    sC1.adj bF.out = AdjVal.vec 5 ∧
    sC1.bcVal 9 = 3 ∧
    (evalAdjSolve envF beF bF sC1).2 =
      [Ev.derivJac, Ev.assembleJac, Ev.bcCopy 9, Ev.bcHomog 9,
       Ev.bcApplyMat 9 0, Ev.transposeJac, Ev.adjSolve 5, Ev.applyTmpBcDep 9,
       Ev.derivDep 1, Ev.assembleDep 1, Ev.zeroBcRows 1 [0, 1],
       Ev.transposeDep 1] := by
  refine ⟨rfl, rfl, ?_⟩
  decide

/-- C2 counterexample: with the output adjoint at the zero sentinel,
`SolveBlock.evaluate_adj` still invokes backend assembly (the Jacobian is
differentiated and assembled before the sentinel test at `solving.py` lines
92-97), so "no backend assembly is invoked" fails as stated. -/
theorem evaluateAdj_zero_sentinel_still_assembles :
    sZero.adj bF.out = AdjVal.zero ∧
    Ev.assembleJac ∈ (evalAdjSolve envF beF bF sZero).2 := by
  refine ⟨rfl, ?_⟩
  decide

/-- C2 (amended): with the output adjoint at the zero sentinel,
`SolveBlock.evaluate_adj` leaves the whole state (in particular every
dependency's adjoint) unchanged, performs no bc work, transpose, solve or
dependency work (only the Jacobian derivative and assembly appear in the
trace), and `AssignBlock.evaluate_adj` is a complete no-op on the state. -/
theorem evaluateAdj_zero_sentinel_no_op (env : Env) (be : Backend)
    (b : SolveBlk) (s : TapeState) (hb : s.adj b.out = AdjVal.zero)
    (a : AssignBlk) (sa : TapeState) (ha : sa.adj a.out = AdjVal.zero) :
    (evalAdjSolve env be b s).1 = s ∧
    (∀ e ∈ (evalAdjSolve env be b s).2,
      e = Ev.derivJac ∨ e = Ev.assembleJac) ∧
    evalAdjAssign a sa = sa := by
  refine ⟨?_, ?_, ?_⟩
  · rw [evalAdjSolve_zero env be b s hb]
  · rw [evalAdjSolve_zero env be b s hb]
    intro e he
    simpa using he
  · simp only [evalAdjAssign, ha, addAdj_zero_right, Function.update_eq_self]

theorem evaluateAdj_zero_sentinel_no_op_witness :
    (evalAdjSolve envF beF bF sZero).1 = sZero ∧
    evalAdjAssign aF sZero = sZero :=
  ⟨(evaluateAdj_zero_sentinel_no_op envF beF bF sZero rfl aF sZero rfl).1,
   (evaluateAdj_zero_sentinel_no_op envF beF bF sZero rfl aF sZero rfl).2.2⟩

/-- C3 counterexample: when the accumulated output adjoint is an exactly zero
vector value (algebraic zero, not the int/float sentinel), the `isinstance`
test at `solving.py` line 96 does not fire and evaluation does not
short-circuit at all: the Jacobian is assembled AND the adjoint solve is
performed. -/
theorem evaluateAdj_algebraic_zero_vector_no_short_circuit :
    sVec0.adj bF.out = AdjVal.vec 0 ∧
    AdjVal.vec 0 ≠ AdjVal.zero ∧
    Ev.assembleJac ∈ (evalAdjSolve envF beF bF sVec0).2 ∧
    Ev.adjSolve 0 ∈ (evalAdjSolve envF beF bF sVec0).2 := by
  refine ⟨rfl, by decide, ?_, ?_⟩ <;> decide

/-- C3 (amended): only the int/float zero sentinel short-circuits, and the
early return happens after the Jacobian has been differentiated and
assembled — the trace at the return is exactly `[derivJac, assembleJac]` —
but before bc application, transpose, and the adjoint solve. -/
theorem evaluateAdj_sentinel_returns_after_assembly (env : Env) (be : Backend)
    (b : SolveBlk) (s : TapeState) (hb : s.adj b.out = AdjVal.zero) :
    (evalAdjSolve env be b s).2 = [Ev.derivJac, Ev.assembleJac] := by
  rw [evalAdjSolve_zero env be b s hb]

theorem evaluateAdj_sentinel_returns_after_assembly_witness :
    (evalAdjSolve envF beF bF sZero).2 = [Ev.derivJac, Ev.assembleJac] :=
  evaluateAdj_sentinel_returns_after_assembly envF beF bF sZero rfl

/-- C4: `AssignBlock.evaluate_adj` passes the output's accumulated adjoint,
unchanged, to the source dependency's accumulator (dependency 1) via
`add_adj_output`; every other accumulator — in particular the prior-target
dependency's — and every non-adjoint state component is untouched. -/
theorem assignBlock_adjoint_passthrough (b : AssignBlk) (s : TapeState) :
    (evalAdjAssign b s).adj b.depSource =
      addAdj (s.adj b.depSource) (s.adj b.out) ∧
    (∀ i, i ≠ b.depSource → (evalAdjAssign b s).adj i = s.adj i) ∧
    (evalAdjAssign b s).cp = s.cp ∧
    (evalAdjAssign b s).live = s.live ∧
    (evalAdjAssign b s).bcVal = s.bcVal := by
  refine ⟨?_, ?_, rfl, rfl, rfl⟩
  · unfold evalAdjAssign
    exact Function.update_same _ _ _
  · intro i hi
    unfold evalAdjAssign
    exact Function.update_noteq hi _ _

theorem assignBlock_adjoint_passthrough_witness :
    (evalAdjAssign aF sC1).adj aF.depSource =
      addAdj (sC1.adj aF.depSource) (sC1.adj aF.out) ∧
    (evalAdjAssign aF sC1).adj aF.depTarget = sC1.adj aF.depTarget :=
  ⟨(assignBlock_adjoint_passthrough aF sC1).1,
   (assignBlock_adjoint_passthrough aF sC1).2.1 aF.depTarget (by decide)⟩

/-- C5 counterexample: for a nonlinear SolveBlock the solution variable is
itself a substituted dependency, so `backend.solve` writes the result (7)
into the dependency's checkpoint copy and the output checkpoint — the live
value wrapped by the block's output BlockOutput stays untouched (10), so the
result is NOT written into the block's single output's value. -/
theorem solveBlock_recompute_result_not_in_live_output :
    solveResult envF beF bF sC6 = 7 ∧
    (solveRecompute envF beF bF sC6).cp bF.out = 7 ∧
    (solveRecompute envF beF bF sC6).live (envF.fid bF.out) = 10 ∧
    ¬((solveRecompute envF beF bF sC6).live (envF.fid bF.out) =
      solveResult envF beF bF sC6) := by
  refine ⟨?_, ?_, ?_, ?_⟩ <;> decide

/-- C5 (amended): replaying a dataflow-well-formed tape twice in succession
from the same initial state is bit-identical — the second sweep reproduces
every cell of the state the first sweep produced; and each
`SolveBlock.recompute` refreshes its output's checkpoint with the backend
solve result and writes that result into the solve target (the live
`self.func` only when the solution variable is not itself a substituted
dependency, otherwise the dependency's checkpoint copy). -/
theorem replay_twice_bit_identical (env : Env) (be : Backend)
    (tape : List Blk) (s : TapeState) (h : hypA env tape) :
    (∀ p, readP (replay env be tape (replay env be tape s)) p =
      readP (replay env be tape s) p) ∧
    (∀ sb s2, readP (solveRecompute env be sb s2) (Pos.cpP sb.out) =
        PosVal.iv (solveResult env be sb s2) ∧
      readP (solveRecompute env be sb s2) (objPos (solveTarget env sb)) =
        PosVal.iv (solveResult env be sb s2)) :=
  ⟨replay_idem env be tape s h,
   fun sb s2 => ⟨solveRecompute_out env be sb s2,
     solveRecompute_target env be sb s2⟩⟩

theorem replay_twice_bit_identical_witness :
    hypA envF tapeF ∧
    readP (replay envF beF tapeF (replay envF beF tapeF sC1)) (Pos.cpP 4) =
      readP (replay envF beF tapeF sC1) (Pos.cpP 4) :=
  ⟨by unfold hypA; decide,
   (replay_twice_bit_identical envF beF tapeF sC1
     (by unfold hypA; decide)).1 (Pos.cpP 4)⟩

/-- C6 counterexample: `AssignBlock.recompute` leaves every live value (in
particular the live value of the object wrapped by the block's output)
untouched at 10; the source checkpoint 7 lands in the output's checkpoint
copy instead. -/
theorem assignBlock_recompute_live_value_untouched :
    (assignRecompute aF sC6).live = sC6.live ∧
    (assignRecompute aF sC6).cp aF.out = sC6.cp aF.depSource ∧
    (assignRecompute aF sC6).live (envF.fid aF.out) = 10 ∧
    ¬((assignRecompute aF sC6).live (envF.fid aF.out) =
      sC6.cp aF.depSource) := by
  refine ⟨rfl, ?_, ?_, ?_⟩ <;> decide

/-- C6 (amended): `AssignBlock.recompute` copies the source dependency's
checkpointed value into the object returned by the output's
`get_saved_output()` — the output's checkpoint copy — leaving the target's
live value (and every other state cell) untouched. -/
theorem assignBlock_recompute_copies_into_checkpoint (b : AssignBlk)
    (s : TapeState) :
    (assignRecompute b s).cp b.out = s.cp b.depSource ∧
    (assignRecompute b s).live = s.live ∧
    (∀ i, i ≠ b.out → (assignRecompute b s).cp i = s.cp i) ∧
    (assignRecompute b s).adj = s.adj ∧
    (assignRecompute b s).bcVal = s.bcVal := by
  refine ⟨?_, rfl, ?_, rfl, rfl⟩
  · unfold assignRecompute
    exact Function.update_same _ _ _
  · intro i hi
    unfold assignRecompute
    exact Function.update_noteq hi _ _

theorem assignBlock_recompute_copies_into_checkpoint_witness :
    (assignRecompute aF sC6).cp aF.out = sC6.cp aF.depSource ∧
    (assignRecompute aF sC6).cp aF.depTarget = sC6.cp aF.depTarget :=
  ⟨(assignBlock_recompute_copies_into_checkpoint aF sC6).1,
   (assignBlock_recompute_copies_into_checkpoint aF sC6).2.2.1
     aF.depTarget (by decide)⟩

/-- A concrete nonlinear left-hand side form with one coefficient. -/
def formC7 : Form := { coeffs := [2] }

/-- C7 counterexample: constructing a SolveBlock from `F == 0` — the
right-hand side `0` is not form-like — succeeds (no error of any kind is
raised); the block is merely classified nonlinear.  The `linear` flag is an
`isinstance(_, ufl.Form)` check on both sides, not a genuine-linearity
check. -/
theorem solveBlock_init_nonform_no_error :
    sideIsForm UflSide.scalarZero = false ∧
    solveBlockInit (.equation (.form formC7) .scalarZero) 7 (.single 9)
        (fun f => f + 20) =
      .ok { lhsCoeffs := [2], rhsCoeffs := [], linear := false, funcFid := 7,
            bcs := [9], deps := [29, 22] } := by
  exact ⟨rfl, rfl⟩

/-- C7 (amended): for every equation input, construction succeeds and the
`linear` flag is exactly the conjunction of the two `isinstance(_, ufl.Form)`
checks; a non-form side never raises, it just classifies the block
nonlinear. -/
theorem solveBlock_init_linear_iff_isinstance_forms (lhs rhs : UflSide)
    (fc : Nat) (bca : BcArg) (boOf : Nat → Nat) :
    ∃ core, solveBlockInit (.equation lhs rhs) fc bca boOf = .ok core ∧
      core.linear = (sideIsForm lhs && sideIsForm rhs) :=
  ⟨_, rfl, rfl⟩

/-- C8: when the first argument of `solve` is not an equation-like object
(a pure linear-algebra solve), `SolveBlock.__init__` raises immediately:
construction returns the error and no block value exists. -/
theorem solveBlock_init_linalg_not_implemented (m fc : Nat) (bca : BcArg)
    (boOf : Nat → Nat) :
    solveBlockInit (.linAlg m) fc bca boOf =
      .error ConstructionError.notImplemented := rfl

/-- C9 counterexample: in the annotated `solve` entry point the output
BlockOutput is attached at trace position 3, strictly BEFORE the real forward
backend solve at position 4 — refuting the claimed order "forward solve, then
output attached". -/
theorem solve_entry_output_attached_not_after_forward_solve :
    SolveEv.outputAttached ∈
      solveEntryEvents true (.equation (.form formC7) .scalarZero) 7 .noBc
        (fun f => f) 3 ∧
    SolveEv.forwardSolve ∈
      solveEntryEvents true (.equation (.form formC7) .scalarZero) 7 .noBc
        (fun f => f) 3 ∧
    ¬((solveEntryEvents true (.equation (.form formC7) .scalarZero) 7 .noBc
          (fun f => f) 3).indexOf SolveEv.forwardSolve <
      (solveEntryEvents true (.equation (.form formC7) .scalarZero) 7 .noBc
          (fun f => f) 3).indexOf SolveEv.outputAttached) := by
  refine ⟨?_, ?_, ?_⟩ <;> decide

/-- C9 (amended): the annotated `solve` entry point constructs the block,
appends it to the tape, creates and attaches the output BlockOutput, and only
then runs the real forward backend solve — the output is attached BEFORE the
forward solve. -/
theorem solve_entry_event_order (lhs rhs : UflSide) (fc : Nat) (bca : BcArg)
    (boOf : Nat → Nat) (nb : Nat) :
    solveEntryEvents true (.equation lhs rhs) fc bca boOf nb =
      [.blockConstructed, .blockAdded, .outputCreated, .outputAttached,
       .forwardSolve] := rfl

/-- C10: `SolveBlock.evaluate_adj` never mutates the recorded
boundary-condition objects — their prescribed values are unchanged by a
backward sweep — and every matrix-level bc application in the trace of a
Dirichlet bc uses the homogenized fresh copy (prescribed value 0). -/
theorem evaluateAdj_bc_objects_not_mutated (env : Env) (be : Backend)
    (b : SolveBlk) (s : TapeState) :
    (evalAdjSolve env be b s).1.bcVal = s.bcVal ∧
    (∀ f v, Ev.bcApplyMat f v ∈ (evalAdjSolve env be b s).2 →
      env.bcDirichlet f = true → v = 0) := by
  constructor
  · cases ha : s.adj b.out with
    | zero => rw [evalAdjSolve_zero env be b s ha]
    | vec v0 =>
      rw [evalAdjSolve_vec env be b s v0 ha]
      exact (depLoopState_preserves env be b _ _ s).2.2
  · intro f v hm hd
    exact bcApplyMat_mem_trace env be b s f v hm hd

theorem evaluateAdj_bc_objects_not_mutated_witness :
    (evalAdjSolve envF beF bF sC1).1.bcVal = sC1.bcVal ∧ (0 : Int) = 0 :=
  ⟨(evaluateAdj_bc_objects_not_mutated envF beF bF sC1).1,
   (evaluateAdj_bc_objects_not_mutated envF beF bF sC1).2 9 0 (by decide)
     (by decide)⟩
